import Mathlib

/-!
Verification of the guardrail pipeline of `orchestrator_v5.py`.

Strings are modelled as lists of characters (`Str := List Char`), matching
Python's code-point view of `str` (so `len`, slicing and iteration agree).
Each Python helper of the source file is translated into an executable Lean
function; the regular expressions of the source are translated into explicit
character scanners with the same matching semantics on the character classes
the program manipulates (word characters are modelled as ASCII alphanumerics
plus underscore, whitespace as the common Python whitespace code points).
-/

set_option linter.unusedVariables false

abbrev Str := List Char

/-- Python whitespace (`str.strip`, regex `\s`), restricted to the whitespace
code points this development manipulates. -/
def pyIsSpace (c : Char) : Bool :=
  c == ' ' || c == '\t' || c == '\n' || c == '\r' || c == '\x0b' || c == '\x0c' ||
  c == '\x1c' || c == '\x1d' || c == '\x1e' || c == '\x1f' || c == '\x85' || c == '\xa0' ||
  c == ' ' || c == ' ' || c == '　'

/-- Line boundaries recognized by Python `str.splitlines`. -/
def isLineBreak (c : Char) : Bool :=
  c == '\n' || c == '\r' || c == '\x0b' || c == '\x0c' ||
  c == '\x1c' || c == '\x1d' || c == '\x1e' || c == '\x85' ||
  c == ' ' || c == ' '

/-- Python `str.lstrip()`. -/
def pyLstrip (l : Str) : Str := l.dropWhile pyIsSpace

/-- Python `str.rstrip()`. -/
def pyRstrip (l : Str) : Str := (l.reverse.dropWhile pyIsSpace).reverse

/-- Python `str.strip()`. -/
def pyStrip (l : Str) : Str := pyRstrip (pyLstrip l)

/-- Helper for `pySplitLines`: accumulates the current line (reversed). -/
def splitLinesAux : Str → Str → List Str
  | [], acc => if acc.isEmpty then [] else [acc.reverse]
  | '\r' :: '\n' :: t, acc => acc.reverse :: splitLinesAux t []
  | c :: t, acc =>
    if isLineBreak c then acc.reverse :: splitLinesAux t []
    else splitLinesAux t (c :: acc)

/-- Python `str.splitlines()`: splits on line-boundary code points (treating
`\r\n` as a single boundary) and drops a trailing empty segment. -/
def pySplitLines (s : Str) : List Str := splitLinesAux s []

/-- Python `text.rfind(ch, 0, stop)` generalized to a predicate: index of the
last character strictly before `stop` satisfying `p`, if any. -/
def rfindP (p : Char → Bool) : Str → Nat → Option Nat
  | [], _ => none
  | _ :: _, 0 => none
  | c :: t, stop + 1 =>
    match rfindP p t stop with
    | some i => some (i + 1)
    | none => if p c then some 0 else none

/-- Python slice `text[:j]` for a possibly negative bound `j`. -/
def pyTakeInt (t : Str) (j : Int) : Str :=
  if j < 0 then t.take ((t.length : Int) + j).toNat else t.take j.toNat

/-- `trim_to_limit` (orchestrator_v5.py lines 81-84):
`cut = text.rfind(" ", 0, max(0, limit-1))`, then either
`(text[:cut] + ellipsis).rstrip()` or `(text[:limit-1] + ellipsis).rstrip()`.
Note `max(0, limit-1)` equals Nat subtraction `limit - 1`. -/
def trim_to_limit (text : Str) (limit : Nat) : Str :=
  if text.length ≤ limit then text
  else
    match rfindP (fun c => c == ' ') text (limit - 1) with
    | some cut => pyRstrip (text.take cut ++ ['…'])
    | none => pyRstrip (pyTakeInt text ((limit : Int) - 1) ++ ['…'])

/-- Modelled from the claim wording of C6 (not from the source): cut at the
last whitespace character at or before position `limit - 1`, else hard-cut at
`limit - 1`; append the ellipsis and right-trim. Used only to refute the
claim as stated. -/
def trimToLimitClaim (text : Str) (limit : Nat) : Str :=
  if text.length ≤ limit then text
  else
    match rfindP pyIsSpace text limit with
    | some cut => pyRstrip (text.take cut ++ ['…'])
    | none => pyRstrip (pyTakeInt text ((limit : Int) - 1) ++ ['…'])

/-- Python truthiness of a string: non-empty. -/
def strTruthy (l : Str) : Bool := !l.isEmpty

/-- Python `s.isdigit()` (ASCII digits). -/
def pyIsDigitStr (l : Str) : Bool := !l.isEmpty && l.all (fun c => c.isDigit)

/-- The primary, line-based candidate list of `split_posts`
(orchestrator_v5.py line 67): split into lines, strip each, keep the
non-empty ones. -/
def lineCandidates (text : Str) : List Str :=
  ((pySplitLines text).map pyStrip).filter strTruthy

/-- One match of the numbering pattern `\s*\d+[\).\-]\s*` starting at the
current position: maximal whitespace run, at least one digit, one separator
out of `)`, `.`, `-`, then a maximal trailing whitespace run. Returns the
matched length. -/
def numMatchCore (s : Str) : Option Nat :=
  let w := (s.takeWhile pyIsSpace).length
  let s1 := s.drop w
  let d := (s1.takeWhile (fun c => c.isDigit)).length
  if d = 0 then none
  else
    match s1.drop d with
    | c :: rest =>
      if c == ')' || c == '.' || c == '-' then
        some (w + d + 1 + ((rest.takeWhile pyIsSpace).length))
      else none
    | [] => none

/-- A match of `(?:^\s*\d+[\).\-]\s*|\n\s*\d+[\).\-]\s*)` at the current
position: the first alternative applies at a line start (start of text or
right after a newline, per `re.MULTILINE`), the second consumes a literal
newline first. -/
def numMatch (lineStart : Bool) (s : Str) : Option Nat :=
  if lineStart then numMatchCore s
  else
    match s with
    | '\n' :: t => (numMatchCore t).map (fun n => n + 1)
    | _ => none

/-- `re.split` on the numbering pattern: emits the segments between matches,
scanning left to right. `fuel` bounds the recursion; it is always called with
`length + 1`, which suffices since every step consumes at least one
character. -/
def numSplitAux (fuel : Nat) (lineStart : Bool) (s : Str) (acc : Str) : List Str :=
  match fuel with
  | 0 => [(acc.reverse ++ s)]
  | fuel + 1 =>
    match s with
    | [] => [acc.reverse]
    | c :: rest =>
      match numMatch lineStart (c :: rest) with
      | some n =>
        let matched := (c :: rest).take n
        acc.reverse ::
          numSplitAux fuel (matched.getLast? == some '\n') ((c :: rest).drop n) []
      | none => numSplitAux fuel (c == '\n') rest (c :: acc)

/-- The fallback numbered-list split of `split_posts`
(orchestrator_v5.py line 70). -/
def numSplit (text : Str) : List Str := numSplitAux (text.length + 1) true text []

/-- `split_posts` (orchestrator_v5.py lines 66-72). -/
def split_posts (text : Str) : List Str :=
  let lines := lineCandidates text
  if 3 ≤ lines.length then lines
  else
    let parts := numSplit text
    let posts := (parts.filter (fun s => strTruthy s && !pyIsDigitStr (pyStrip s))).map pyStrip
    posts.filter strTruthy

/-- The fixed fallback CTA post appended by `enforce_three`
(orchestrator_v5.py line 78). -/
def fallbackPost : Str :=
  "Join our mailing list for updates: https://trieboldinstitute.org/join".toList

/-- `enforce_three` (orchestrator_v5.py lines 74-79). -/
def enforce_three (posts : List Str) : List Str :=
  let posts := posts.filter strTruthy
  let posts := if 3 < posts.length then posts.take 3 else posts
  posts ++ List.replicate (3 - posts.length) fallbackPost

/-- Word characters for the `\b` boundaries of the CTA regexes (ASCII
alphanumerics and underscore). -/
def isWordChar (c : Char) : Bool := c.isAlphanum || c == '_'

/-- A `\b` boundary holds before a word character when the preceding
character (if any) is not a word character. -/
def wbL : Option Char → Bool
  | none => true
  | some c => !isWordChar c

/-- A `\b` boundary holds after a word character when the following
character (if any) is not a word character. -/
def nonWordOrEnd : Str → Bool
  | [] => true
  | c :: _ => !isWordChar c

/-- The `\bmail(ing)?\s*list\b` part of the join/mailing-list regex, anchored
at the current position (the preceding `\b` is checked by the caller). -/
def mailListHere (s : Str) : Bool :=
  "mail".toList.isPrefixOf s &&
    (let t := s.drop 4
     let t2 := if "ing".toList.isPrefixOf t then t.drop 3 else t
     let t3 := t2.dropWhile pyIsSpace
     "list".toList.isPrefixOf t3 && nonWordOrEnd (t3.drop 4))

/-- Scans the `.*` gap of `\bjoin\b.*\bmail(ing)?\s*list\b`: the gap may not
contain a newline (no `re.DOTALL`), and `mail` must start at a `\b`
boundary. -/
def mailScan (prev : Option Char) : Str → Bool
  | [] => false
  | c :: rest =>
    (mailListHere (c :: rest) && wbL prev) || (!(c == '\n') && mailScan (some c) rest)

/-- A match of `\bjoin\b.*\bmail(ing)?\s*list\b` starting at the current
position; `prev` is the preceding character for the leading `\b`. After
`join` the next character is the letter `n`, hence `mailScan (some 'n')`. -/
def joinHere (prev : Option Char) (s : Str) : Bool :=
  "join".toList.isPrefixOf s &&
    (nonWordOrEnd (s.drop 4) && (mailScan (some 'n') (s.drop 4) && wbL prev))

/-- `re.search` of the join/mailing-list regex: tries a match at every
position. -/
def joinMailSearch (prev : Option Char) : Str → Bool
  | [] => false
  | c :: rest => joinHere prev (c :: rest) || joinMailSearch (some c) rest

/-- A match of `\b(sign\s*up|subscribe)\b` at the current position. -/
def signupHere (prev : Option Char) (s : Str) : Bool :=
  (("sign".toList.isPrefixOf s &&
      (let t := (s.drop 4).dropWhile pyIsSpace
       "up".toList.isPrefixOf t && nonWordOrEnd (t.drop 2))) ||
   ("subscribe".toList.isPrefixOf s && nonWordOrEnd (s.drop 9))) && wbL prev

/-- `re.search` of the sign-up/subscribe regex. -/
def signupSearch (prev : Option Char) : Str → Bool
  | [] => false
  | c :: rest => signupHere prev (c :: rest) || signupSearch (some c) rest

/-- Python substring containment (`needle in hay`). -/
def containsSub (needle : Str) : Str → Bool
  | [] => needle.isEmpty
  | c :: rest => needle.isPrefixOf (c :: rest) || containsSub needle rest

/-- The canonical join-link domain fragment checked first by `has_cta`. -/
def joinDomain : Str := "trieboldinstitute.org/join".toList

/-- `has_cta` (orchestrator_v5.py lines 86-91): lower-case the post, then
check the canonical domain fragment, the join/mailing-list pattern, and the
sign-up/subscribe pattern. -/
def has_cta (p : Str) : Bool :=
  containsSub joinDomain (p.map Char.toLower) ||
  joinMailSearch none (p.map Char.toLower) ||
  signupSearch none (p.map Char.toLower)

/-- Head of the remaining text is a non-whitespace character (`\S`). -/
def nonSpaceHead : Str → Bool
  | [] => false
  | c :: _ => !pyIsSpace c

/-- A match of `https?://\S+` at the current position. -/
def urlHere (s : Str) : Bool :=
  ("https://".toList.isPrefixOf s && nonSpaceHead (s.drop 8)) ||
  ("http://".toList.isPrefixOf s && nonSpaceHead (s.drop 7))

/-- `URL_RE.search` (orchestrator_v5.py line 26). -/
def urlSearch : Str → Bool
  | [] => false
  | c :: rest => urlHere (c :: rest) || urlSearch rest

/-- The CTA suffix appended when the post already contains a URL
(orchestrator_v5.py line 99). -/
def suffixNoLink : Str := " — Join our mailing list.".toList

/-- The CTA suffix appended when the post contains no URL
(orchestrator_v5.py line 101). -/
def suffixWithLink : Str :=
  " — Join our mailing list: https://trieboldinstitute.org/join".toList

/-- The conditional shortening of the `ensure_cta` loop body
(orchestrator_v5.py lines 102-103): shorten the post if the suffix would not
fit. -/
def fitBody (p suffix : Str) : Str :=
  if 280 < p.length + suffix.length
  then trim_to_limit p (280 - suffix.length) else p

/-- The suffix-appending part of the `ensure_cta` loop body
(orchestrator_v5.py lines 102-104): shorten the post if the suffix would not
fit, then append it (re-trimming if it still does not fit). -/
def ensureAppend (p suffix : Str) : Str :=
  if (fitBody p suffix).length + suffix.length ≤ 280 then fitBody p suffix ++ suffix
  else trim_to_limit (fitBody p suffix ++ suffix) 280

/-- The per-post body of the `ensure_cta` loop
(orchestrator_v5.py lines 95-104). -/
def ensureStep (p : Str) : Str :=
  if has_cta p then (if p.length ≤ 280 then p else trim_to_limit p 280)
  else ensureAppend p (if urlSearch p then suffixNoLink else suffixWithLink)

/-- `ensure_cta` (orchestrator_v5.py lines 93-105): the loop has no
cross-iteration state, hence a map. -/
def ensure_cta (posts : List Str) : List Str := posts.map ensureStep

/-- The count-violation feedback message of `role_critic`
(orchestrator_v5.py line 136). -/
def cntMsg (n : Nat) : Str :=
  "Expected 3 posts; got ".toList ++ (toString n).toList ++ ".".toList

/-- The length-violation feedback message (orchestrator_v5.py line 137). -/
def lenMsg : Str := "One or more posts exceed 280 chars.".toList

/-- The CTA-violation feedback message (orchestrator_v5.py line 138). -/
def ctaMsg : Str :=
  "Each post must include a clear CTA (Join/Sign up/Subscribe or /join link).".toList

/-- The validation verdict returned by `role_critic`. -/
structure Verdict where
  ok : Bool
  feedback : List Str
  posts : List Str
deriving DecidableEq, Repr

/-- `role_critic` (orchestrator_v5.py lines 128-139). -/
def role_critic (deliverable : Str) : Verdict :=
  let posts := enforce_three (split_posts deliverable)
  let ok_len := posts.all (fun p => decide (p.length ≤ 280))
  let ok_cta := posts.all has_cta
  let ok_cnt : Bool := posts.length == 3
  let ok := ok_len && ok_cta && ok_cnt
  let feedback :=
    (if !ok_cnt then [cntMsg posts.length] else []) ++
    (if !ok_len then [lenMsg] else []) ++
    (if !ok_cta then [ctaMsg] else [])
  ⟨ok, feedback, posts⟩

/-- The per-post transformation performed by `role_reviser`: trim, ensure a
CTA, trim again. -/
def reviserStep (p : Str) : Str :=
  trim_to_limit (ensureStep (trim_to_limit p 280)) 280

/-- The post list built by `role_reviser` before joining
(orchestrator_v5.py lines 142-144). -/
def reviser_posts (posts : List Str) : List Str :=
  (ensure_cta (posts.map (fun p => trim_to_limit p 280))).map
    (fun p => trim_to_limit p 280)

/-- `role_reviser` (orchestrator_v5.py lines 141-145); the feedback argument
is unused by the source as well. -/
def role_reviser (posts : List Str) (feedback : List Str) : Str :=
  List.intercalate ['\n'] (reviser_posts posts)

/-- A match of the opening reasoning-block tag regex fragment at the current
position (THINK_RE, orchestrator_v5.py line 24): angle bracket, optional
whitespace, the tag word case-insensitively, optional whitespace, closing
angle bracket. Returns the matched length. -/
def matchOpenTag (s : Str) : Option Nat :=
  match s with
  | '<' :: t =>
    let w1 := (t.takeWhile pyIsSpace).length
    let t1 := t.drop w1
    if ((t1.take 5).map Char.toLower) == "think".toList then
      let t2 := t1.drop 5
      let w2 := (t2.takeWhile pyIsSpace).length
      match t2.drop w2 with
      | '>' :: _ => some (1 + w1 + 5 + w2 + 1)
      | _ => none
    else none
  | _ => none

/-- A match of the closing reasoning-block tag at the current position. -/
def matchCloseTag (s : Str) : Option Nat :=
  match s with
  | '<' :: t =>
    let w1 := (t.takeWhile pyIsSpace).length
    match t.drop w1 with
    | '/' :: t1 =>
      let w2 := (t1.takeWhile pyIsSpace).length
      let t2 := t1.drop w2
      if ((t2.take 5).map Char.toLower) == "think".toList then
        let t3 := t2.drop 5
        let w3 := (t3.takeWhile pyIsSpace).length
        match t3.drop w3 with
        | '>' :: _ => some (1 + w1 + 1 + w2 + 5 + w3 + 1)
        | _ => none
      else none
    | _ => none
  | _ => none

/-- Finds the earliest closing tag (the non-greedy gap of THINK_RE, with
`re.DOTALL` the gap may span newlines): returns gap length and closing-tag
length. `fuel` bounds the scan and is always called with enough. -/
def findCloseTag (fuel : Nat) (s : Str) : Option (Nat × Nat) :=
  match fuel with
  | 0 => none
  | fuel + 1 =>
    match matchCloseTag s with
    | some m => some (0, m)
    | none =>
      match s with
      | [] => none
      | _ :: t => (findCloseTag fuel t).map (fun r => (r.1 + 1, r.2))

/-- `THINK_RE.sub("", text)`: removes every non-greedy
open-tag/gap/close-tag span, scanning left to right. An open tag without a
matching close tag is kept verbatim. -/
def stripThinkAux (fuel : Nat) (s : Str) : Str :=
  match fuel with
  | 0 => s
  | fuel + 1 =>
    match s with
    | [] => []
    | c :: t =>
      match matchOpenTag (c :: t) with
      | some n =>
        match findCloseTag (t.length + 1) ((c :: t).drop n) with
        | some gm => stripThinkAux fuel ((c :: t).drop (n + gm.1 + gm.2))
        | none => c :: stripThinkAux fuel t
      | none => c :: stripThinkAux fuel t

/-- The reasoning-block scrubbing pass of `sanitize`. -/
def stripThink (s : Str) : Str := stripThinkAux (s.length + 1) s

/-- The bracketed role labels of META_RE (orchestrator_v5.py line 25), in
alternation order. -/
def metaLabels : List Str :=
  ["planner".toList, "worker".toList, "critic".toList, "reviser".toList,
   "log".toList]

/-- A match of META_RE at a line-start position: maximal whitespace run (which
may span newlines), an opening bracket, one of the role labels
case-insensitively, a closing bracket, then the rest of the line (up to but
not including the next newline, as `.` does not match newlines and `$` is
multiline). Returns the matched length. -/
def matchMetaLen (s : Str) : Option Nat :=
  let w := (s.takeWhile pyIsSpace).length
  match s.drop w with
  | '[' :: t =>
    match metaLabels.find? (fun lab => ((t.take lab.length).map Char.toLower) == lab) with
    | some lab =>
      match t.drop lab.length with
      | ']' :: rest =>
        some (w + 1 + lab.length + 1 + ((rest.takeWhile (fun c => !(c == '\n'))).length))
      | _ => none
    | none => none
  | _ => none

/-- `META_RE.sub("", text)`: removes every matched label line, scanning left
to right; `^` (multiline) holds at the start and right after each newline. -/
def stripMetaAux (fuel : Nat) (lineStart : Bool) (s : Str) : Str :=
  match fuel with
  | 0 => s
  | fuel + 1 =>
    match s with
    | [] => []
    | c :: t =>
      if lineStart then
        match matchMetaLen (c :: t) with
        | some n => stripMetaAux fuel false ((c :: t).drop n)
        | none => c :: stripMetaAux fuel (c == '\n') t
      else c :: stripMetaAux fuel (c == '\n') t

/-- The role-label scrubbing pass of `sanitize`. -/
def stripMeta (s : Str) : Str := stripMetaAux (s.length + 1) true s

/-- `sanitize` (orchestrator_v5.py lines 28-31): strip reasoning blocks, strip
role-label lines, trim surrounding whitespace. -/
def sanitize (text : Str) : Str := pyStrip (stripMeta (stripThink text))

/-- The fatal error message raised after the final failed attempt of `chat`
(orchestrator_v5.py line 50). -/
def wrapErr (tries : Nat) (e : Str) : Str :=
  "API call failed after ".toList ++ (toString tries).toList ++
    " tries: ".toList ++ e

/-- The retry loop of `chat` (orchestrator_v5.py lines 33-50), shallowly
embedded: the body of one attempt (HTTP post, status check, JSON parse,
content extraction) is an oracle `req` mapping the attempt number to either
an error or the extracted content plus the raw response. The function
returns the result, the list of performed sleeps (the source sleeps
`BACKOFF * attempt` seconds between consecutive attempts) and the number of
attempts made. `fuel` counts the remaining loop iterations; `chat` starts it
at `tries` with attempt number 1, matching `range(1, tries + 1)`. -/
def chatGo {RawT : Type} (req : Nat → Except Str (Str × RawT)) (backoff : ℚ)
    (tries : Nat) : Nat → Nat → Except Str (Str × RawT) × List ℚ × Nat
  | 0, _ => (Except.error [], [], 0)
  | fuel + 1, attempt =>
    match req attempt with
    | Except.ok cr => (Except.ok (sanitize cr.1, cr.2), [], 1)
    | Except.error e =>
      if attempt < tries then
        let r := chatGo req backoff tries fuel (attempt + 1)
        (r.1, backoff * (attempt : ℚ) :: r.2.1, r.2.2 + 1)
      else (Except.error (wrapErr tries e), [], 1)

/-- `chat` (orchestrator_v5.py lines 33-50): run the retry loop from attempt
1. On the first successful attempt the sanitized first-choice content and the
raw response are returned. -/
def chat {RawT : Type} (req : Nat → Except Str (Str × RawT)) (backoff : ℚ)
    (tries : Nat) : Except Str (Str × RawT) × List ℚ × Nat :=
  chatGo req backoff tries tries 1

/-- One line of the tasks file as seen by `run_queue` after JSON parsing:
blank, invalid JSON, or a record with an optional id and a goal string. -/
inductive TaskLine where
  | blank : TaskLine
  | badJson : TaskLine
  | task : Option Str → Str → TaskLine
deriving DecidableEq

/-- `tid = task.get("id") or task_id_for(goal)` (orchestrator_v5.py line
230): a missing or empty id falls back to the content fingerprint of the
stripped goal. The fingerprint `task_id_for` (a SHA-1 prefix computed by the
external hashlib collaborator) is kept abstract as `tidOf`. -/
def effTid (tidOf : Str → Str) : Option Str → Str → Str
  | some s, g => if s.isEmpty then tidOf g else s
  | none, g => tidOf g

/-- `processed.add(tid)` on the list-modelled set. -/
def setAdd (s : List Str) (x : Str) : List Str := if x ∈ s then s else x :: s

/-- The task loop of `run_queue` (orchestrator_v5.py lines 222-236): skip
blank lines, invalid JSON, records without a goal, and already-processed
ids; otherwise checkout, run the pipeline, commit, and add the id to the
in-memory processed set. Returns the number of checkouts, pipeline runs and
commits performed, together with the final processed set. -/
def runQueueAux (tidOf : Str → Str) :
    List TaskLine → List Str → Nat × Nat × Nat × List Str
  | [], proc => (0, 0, 0, proc)
  | TaskLine.blank :: rest, proc => runQueueAux tidOf rest proc
  | TaskLine.badJson :: rest, proc => runQueueAux tidOf rest proc
  | TaskLine.task id? g :: rest, proc =>
    if (pyStrip g).isEmpty then runQueueAux tidOf rest proc
    else if effTid tidOf id? (pyStrip g) ∈ proc then runQueueAux tidOf rest proc
    else
      let r := runQueueAux tidOf rest (setAdd proc (effTid tidOf id? (pyStrip g)))
      (r.1 + 1, r.2.1 + 1, r.2.2.1 + 1, r.2.2.2)

/-- Lexicographic order on strings by code point, as Python `sorted` uses. -/
def listLe : Str → Str → Bool
  | [], _ => true
  | _ :: _, [] => false
  | a :: s1, b :: s2 => if a < b then true else if b < a then false else listLe s1 s2

/-- Insertion into a strictly sorted duplicate-free list. -/
def insertSortedNoDup (x : Str) : List Str → List Str
  | [] => [x]
  | y :: t =>
    if x = y then y :: t
    else if listLe x y then x :: y :: t
    else y :: insertSortedNoDup x t

/-- Python `sorted(set(l))`: the strictly sorted list of the distinct
elements of `l`. -/
def pySortedSet (l : List Str) : List Str := l.foldr insertSortedNoDup []

/-- The observable outcome of one `run_queue` invocation: how many branch
checkouts, pipeline runs and commits were performed, and the processed-id
set persisted at the end (`state["processed"] = sorted(processed)`). -/
structure QueueRes where
  checkouts : Nat
  pipelineRuns : Nat
  commits : Nat
  persisted : List Str
deriving DecidableEq

/-- `run_queue` (orchestrator_v5.py lines 219-238) over a present tasks
file: process the parsed lines against the loaded processed set, then
persist the sorted processed set once at the end. -/
def run_queue (tidOf : Str → Str) (loaded : List Str) (lines : List TaskLine) :
    QueueRes :=
  let r := runQueueAux tidOf lines loaded
  QueueRes.mk r.1 r.2.1 r.2.2.1 (pySortedSet r.2.2.2)


lemma rfindP_lt {p : Char → Bool} :
    ∀ {t : Str} {stop i : Nat}, rfindP p t stop = some i → i < stop := by
  intro t
  induction t with
  | nil => intro stop i h; simp [rfindP] at h
  | cons c t ih =>
    intro stop i h
    cases stop with
    | zero => simp [rfindP] at h
    | succ s =>
      rw [rfindP] at h
      cases hr : rfindP p t s with
      | some j =>
        rw [hr] at h
        simp only [Option.some.injEq] at h
        have := ih hr
        omega
      | none =>
        rw [hr] at h
        by_cases hc : p c
        · simp [hc] at h; omega
        · simp [hc] at h

lemma rfindP_none {p : Char → Bool} :
    ∀ {t : Str} {stop : Nat}, rfindP p t stop = none →
      ∀ j c, j < stop → t[j]? = some c → p c = false := by
  intro t
  induction t with
  | nil => intro stop _ j c _ hj; simp at hj
  | cons a t ih =>
    intro stop h j c hjs hj
    cases stop with
    | zero => omega
    | succ s =>
      rw [rfindP] at h
      cases hr : rfindP p t s with
      | some i => rw [hr] at h; simp at h
      | none =>
        rw [hr] at h
        have ha : p a = false := by
          by_cases hc : p a
          · simp [hc] at h
          · simpa using hc
        cases j with
        | zero =>
          have hca : c = a := by simpa using hj.symm
          rw [hca]; exact ha
        | succ j => exact ih hr j c (by omega) (by simpa using hj)

lemma rfindP_found {p : Char → Bool} :
    ∀ {t : Str} {stop i : Nat}, rfindP p t stop = some i →
      (∃ c, t[i]? = some c ∧ p c = true) ∧
      ∀ j c, j < stop → t[j]? = some c → p c = true → j ≤ i := by
  intro t
  induction t with
  | nil => intro stop i h; simp [rfindP] at h
  | cons a t ih =>
    intro stop i h
    cases stop with
    | zero => simp [rfindP] at h
    | succ s =>
      rw [rfindP] at h
      cases hr : rfindP p t s with
      | some k =>
        rw [hr] at h
        simp only [Option.some.injEq] at h
        subst h
        obtain ⟨⟨c, hc, hpc⟩, hmax⟩ := ih hr
        refine ⟨⟨c, by simpa using hc, hpc⟩, ?_⟩
        intro j d hjs hj hpd
        cases j with
        | zero => omega
        | succ j => have := hmax j d (by omega) (by simpa using hj) hpd; omega
      | none =>
        rw [hr] at h
        by_cases hc : p a
        · simp [hc] at h
          subst h
          refine ⟨⟨a, by simp, hc⟩, ?_⟩
          intro j d hjs hj hpd
          cases j with
          | zero => omega
          | succ j =>
            have := rfindP_none hr j d (by omega) (by simpa using hj)
            rw [hpd] at this; cases this
        · simp [hc] at h

lemma pyRstrip_length_le (l : Str) : (pyRstrip l).length ≤ l.length := by
  unfold pyRstrip
  have h := (List.dropWhile_sublist (l := l.reverse) (p := pyIsSpace)).length_le
  simpa using h

lemma pyTakeInt_of_pos (t : Str) (limit : Nat) (h : 1 ≤ limit) :
    pyTakeInt t ((limit : Int) - 1) = t.take (limit - 1) := by
  unfold pyTakeInt
  have h0 : ¬ ((limit : Int) - 1 < 0) := by omega
  rw [if_neg h0]
  congr 1
  omega

lemma trim_to_limit_length_le (text : Str) (limit : Nat) (h : 1 ≤ limit) :
    (trim_to_limit text limit).length ≤ limit := by
  unfold trim_to_limit
  by_cases hle : text.length ≤ limit
  · rw [if_pos hle]; exact hle
  · rw [if_neg hle]
    split
    next cut hr =>
      have hcut : cut < limit - 1 := rfindP_lt hr
      have h1 := pyRstrip_length_le (text.take cut ++ ['…'])
      have h2 : (text.take cut ++ ['…']).length ≤ cut + 1 := by
        rw [List.length_append]
        have := List.length_take_le cut text
        simp only [List.length_singleton]
        omega
      omega
    next hr =>
      rw [pyTakeInt_of_pos text limit h]
      have h1 := pyRstrip_length_le (text.take (limit - 1) ++ ['…'])
      have h2 : (text.take (limit - 1) ++ ['…']).length ≤ (limit - 1) + 1 := by
        rw [List.length_append]
        have := List.length_take_le (limit - 1) text
        simp only [List.length_singleton]
        omega
      omega

lemma trim_to_limit_of_le {text : Str} {limit : Nat} (h : text.length ≤ limit) :
    trim_to_limit text limit = text := by
  unfold trim_to_limit
  rw [if_pos h]

/-- Claim C3, as stated, is false: with `limit = 0` and `text = "ab"`,
`trim_to_limit` evaluates `text[:limit-1]`, a Python slice with negative
bound `-1`, producing `"a…"` of length 2 > 0. -/
theorem trim_to_limit_c3_counterexample :
    ¬ ((trim_to_limit ("ab".toList) 0).length ≤ 0) := by decide

/-- Claim C3 (amended): for every text and every limit at least 1,
`trim_to_limit(text, limit)` returns a string of length at most `limit`. -/
theorem trim_to_limit_c3_within_limit (text : Str) (limit : Nat) (h : 1 ≤ limit) :
    (trim_to_limit text limit).length ≤ limit :=
  trim_to_limit_length_le text limit h

/-- Witness for C3: a concrete instantiation of the amended claim. -/
theorem trim_to_limit_c3_witness :
    (trim_to_limit ("aaaa bbbbbbbbbb".toList) 10).length ≤ 10 :=
  trim_to_limit_c3_within_limit ("aaaa bbbbbbbbbb".toList) 10 (by decide)

/-- Claim C6, as stated, is false: `trim_to_limit` searches only for the space
character `' '` (not arbitrary whitespace), and only strictly before position
`limit - 1`. On `"ab\tcdefghijklm"` with limit 10 the code hard-cuts to
`"ab\tcdefgh…"`, while the claimed behaviour (cut at the last whitespace at or
before position `limit - 1`, here the tab) would give `"ab…"`. -/
theorem trim_to_limit_c6_counterexample :
    trim_to_limit ("ab\tcdefghijklm".toList) 10 = "ab\tcdefgh…".toList ∧
    trimToLimitClaim ("ab\tcdefghijklm".toList) 10 = "ab…".toList ∧
    trim_to_limit ("ab\tcdefghijklm".toList) 10 ≠
      trimToLimitClaim ("ab\tcdefghijklm".toList) 10 := by
  refine ⟨by decide, by decide, by decide⟩

/-- Claim C6 (amended): for every text longer than the limit (limit at least
1), `trim_to_limit` cuts at the last space character `' '` at a position
strictly before `limit - 1` when one exists in that range, appends a single
ellipsis character and right-trims; when no space exists in that range it
hard-cuts at position `limit - 1` and appends the ellipsis; in particular for
`"aaaa bbbbbbbbbb"` with limit 10 the result ends at the space boundary, not
mid-word. -/
theorem trim_to_limit_c6_cut_behaviour :
    (∀ (text : Str) (limit : Nat), 1 ≤ limit → limit < text.length →
      (∃ i, i + 1 < limit ∧ text[i]? = some ' ' ∧
        (∀ j, j + 1 < limit → text[j]? = some ' ' → j ≤ i) ∧
        trim_to_limit text limit = pyRstrip (text.take i ++ ['…'])) ∨
      ((∀ j, j + 1 < limit → text[j]? ≠ some ' ') ∧
        trim_to_limit text limit = pyRstrip (text.take (limit - 1) ++ ['…']))) ∧
    trim_to_limit ("aaaa bbbbbbbbbb".toList) 10 = "aaaa…".toList := by
  constructor
  · intro text limit hlim hlen
    have hnle : ¬ (text.length ≤ limit) := by omega
    cases hr : rfindP (fun c => c == ' ') text (limit - 1) with
    | some cut =>
      left
      obtain ⟨⟨c, hc, hpc⟩, hmax⟩ := rfindP_found hr
      have hcut : cut < limit - 1 := rfindP_lt hr
      have hcsp : c = ' ' := by simpa using hpc
      subst hcsp
      refine ⟨cut, by omega, hc, ?_, ?_⟩
      · intro j hj hjc
        exact hmax j ' ' (by omega) hjc (by simp)
      · unfold trim_to_limit
        rw [if_neg hnle, hr]
    | none =>
      right
      constructor
      · intro j hj hjc
        have := rfindP_none hr j ' ' (by omega) hjc
        simp at this
      · unfold trim_to_limit
        rw [if_neg hnle, hr, pyTakeInt_of_pos text limit hlim]
  · decide

/-- Witness for C6: the amended cut behaviour at a concrete input where the
space-cut branch applies. -/
theorem trim_to_limit_c6_witness :
    (∃ i, i + 1 < 10 ∧ ("ab cdefghijk".toList)[i]? = some ' ' ∧
      (∀ j, j + 1 < 10 → ("ab cdefghijk".toList)[j]? = some ' ' → j ≤ i) ∧
      trim_to_limit ("ab cdefghijk".toList) 10 =
        pyRstrip (("ab cdefghijk".toList).take i ++ ['…'])) ∨
    ((∀ j, j + 1 < 10 → ("ab cdefghijk".toList)[j]? ≠ some ' ') ∧
      trim_to_limit ("ab cdefghijk".toList) 10 =
        pyRstrip (("ab cdefghijk".toList).take (10 - 1) ++ ['…'])) :=
  trim_to_limit_c6_cut_behaviour.1 ("ab cdefghijk".toList) 10 (by decide) (by decide)

lemma containsSub_append (needle a b : Str) (h : containsSub needle b = true) :
    containsSub needle (a ++ b) = true := by
  induction a with
  | nil => simpa using h
  | cons c a ih =>
    rw [List.cons_append]
    simp only [containsSub]
    rw [ih, Bool.or_true]

lemma joinMailSearch_append (ls : Str) (h : ∀ prev, joinMailSearch prev ls = true)
    (lp : Str) : ∀ prev, joinMailSearch prev (lp ++ ls) = true := by
  induction lp with
  | nil => intro prev; simpa using h prev
  | cons c lp ih =>
    intro prev
    rw [List.cons_append]
    simp only [joinMailSearch]
    rw [ih (some c), Bool.or_true]

lemma joinMailSearch_suffixNoLink :
    ∀ prev, joinMailSearch prev (suffixNoLink.map Char.toLower) = true :=
  fun _ => rfl

lemma has_cta_append_noLink (q : Str) : has_cta (q ++ suffixNoLink) = true := by
  have h := joinMailSearch_append (suffixNoLink.map Char.toLower)
    joinMailSearch_suffixNoLink (q.map Char.toLower) none
  simp only [has_cta, List.map_append]
  rw [h]
  simp

lemma has_cta_append_withLink (q : Str) : has_cta (q ++ suffixWithLink) = true := by
  have h1 : containsSub joinDomain (suffixWithLink.map Char.toLower) = true := by decide
  have h := containsSub_append joinDomain (q.map Char.toLower) _ h1
  simp only [has_cta, List.map_append]
  rw [h]
  simp

lemma fitBody_length (p s : Str) (hs : s.length ≤ 279) :
    (fitBody p s).length + s.length ≤ 280 := by
  unfold fitBody
  split
  next hov =>
    have := trim_to_limit_length_le p (280 - s.length) (by omega)
    omega
  next hov => omega

lemma ensureAppend_eq (p s : Str) (hs : s.length ≤ 279) :
    ensureAppend p s = fitBody p s ++ s := by
  unfold ensureAppend
  rw [if_pos (fitBody_length p s hs)]

lemma ensureAppend_length_le (p s : Str) (hs : s.length ≤ 279) :
    (ensureAppend p s).length ≤ 280 := by
  rw [ensureAppend_eq p s hs, List.length_append]
  exact fitBody_length p s hs

lemma ensureStep_length_le (p : Str) : (ensureStep p).length ≤ 280 := by
  unfold ensureStep
  by_cases hc : has_cta p = true
  · rw [if_pos hc]
    by_cases hl : p.length ≤ 280
    · rw [if_pos hl]; exact hl
    · rw [if_neg hl]; exact trim_to_limit_length_le p 280 (by omega)
  · rw [if_neg hc]
    by_cases hu : urlSearch p = true
    · rw [if_pos hu]; exact ensureAppend_length_le p suffixNoLink (by decide)
    · rw [if_neg hu]; exact ensureAppend_length_le p suffixWithLink (by decide)

lemma ensureStep_cta (p : Str) (hp : p.length ≤ 280) :
    has_cta (ensureStep p) = true := by
  unfold ensureStep
  by_cases hc : has_cta p = true
  · rw [if_pos hc, if_pos hp]; exact hc
  · rw [if_neg hc]
    by_cases hu : urlSearch p = true
    · rw [if_pos hu, ensureAppend_eq p suffixNoLink (by decide)]
      exact has_cta_append_noLink (fitBody p suffixNoLink)
    · rw [if_neg hu, ensureAppend_eq p suffixWithLink (by decide)]
      exact has_cta_append_withLink (fitBody p suffixWithLink)

lemma ensureStep_of_valid (p : Str) (hp : p.length ≤ 280) (hc : has_cta p = true) :
    ensureStep p = p := by
  unfold ensureStep
  rw [if_pos hc, if_pos hp]

lemma reviserStep_valid (p : Str) :
    (reviserStep p).length ≤ 280 ∧ has_cta (reviserStep p) = true := by
  unfold reviserStep
  have h1 : (trim_to_limit p 280).length ≤ 280 :=
    trim_to_limit_length_le p 280 (by omega)
  have h2 := ensureStep_length_le (trim_to_limit p 280)
  have h3 := ensureStep_cta (trim_to_limit p 280) h1
  rw [trim_to_limit_of_le h2]
  exact ⟨h2, h3⟩

lemma reviserStep_of_valid (p : Str) (hp : p.length ≤ 280) (hc : has_cta p = true) :
    reviserStep p = p := by
  unfold reviserStep
  rw [trim_to_limit_of_le hp, ensureStep_of_valid p hp hc, trim_to_limit_of_le hp]

lemma reviserStep_idem (p : Str) : reviserStep (reviserStep p) = reviserStep p :=
  reviserStep_of_valid _ (reviserStep_valid p).1 (reviserStep_valid p).2

lemma reviser_posts_eq_map (posts : List Str) :
    reviser_posts posts = posts.map reviserStep := by
  unfold reviser_posts ensure_cta reviserStep
  rw [List.map_map, List.map_map]
  rfl

/-- Claim C2: the repairer is idempotent — feeding the post list computed by
`role_reviser` back into it reproduces the same final text, and an already
valid 3-post set (each post at most 280 characters and recognized by
`has_cta`) is returned unchanged, joined by single line breaks. -/
theorem role_reviser_c2_idempotent :
    (∀ (posts fb fb2 : List Str),
        role_reviser (reviser_posts posts) fb2 = role_reviser posts fb) ∧
    (∀ (posts fb : List Str), posts.length = 3 →
        (∀ p ∈ posts, p.length ≤ 280 ∧ has_cta p = true) →
        role_reviser posts fb = List.intercalate ['\n'] posts) := by
  constructor
  · intro posts fb fb2
    unfold role_reviser
    rw [reviser_posts_eq_map (reviser_posts posts), reviser_posts_eq_map posts,
      List.map_map]
    exact congrArg (List.intercalate ['\n'])
      (List.map_congr_left (fun p _ => by
        simp only [Function.comp_apply]; exact reviserStep_idem p))
  · intro posts fb h3 hv
    unfold role_reviser
    rw [reviser_posts_eq_map posts]
    have h : posts.map reviserStep = posts.map id :=
      List.map_congr_left (fun p hp => reviserStep_of_valid p (hv p hp).1 (hv p hp).2)
    rw [h, List.map_id]

/-- Witness for C2: a concrete already-valid 3-post set is returned
unchanged. -/
theorem role_reviser_c2_witness :
    role_reviser ["Sign up now".toList, "Subscribe today".toList,
      "Join our mailing list".toList] [] =
    List.intercalate ['\n'] ["Sign up now".toList, "Subscribe today".toList,
      "Join our mailing list".toList] :=
  role_reviser_c2_idempotent.2 _ [] (by decide) (by decide)

/-- Claim C5: if the validator's post set contains a 300-character post with
no recognized CTA, no URL and no embedded line break, then after repair the
corresponding post (the image of that post under the repairer's per-post
transformation) has length at most 280 and satisfies the CTA recognizer, the
final text being the line-break join of the transformed posts. -/
theorem validate_repair_c5_long_line (t : Str) (fb : List Str) (p : Str)
    (hp : p ∈ (role_critic t).posts) (hlen : p.length = 300)
    (hcta : has_cta p = false) (hurl : urlSearch p = false) (hnl : '\n' ∉ p) :
    (reviserStep p).length ≤ 280 ∧ has_cta (reviserStep p) = true ∧
    role_reviser (role_critic t).posts fb =
      List.intercalate ['\n'] ((role_critic t).posts.map reviserStep) := by
  refine ⟨(reviserStep_valid p).1, (reviserStep_valid p).2, ?_⟩
  unfold role_reviser
  rw [reviser_posts_eq_map]

/-- A 300-character post with no CTA, used by the C5 witness. -/
def longA : Str := List.replicate 300 'a'

/-- A deliverable containing `longA` as its second line, used by the C5
witness. -/
def c5text : Str :=
  "Sign up now".toList ++ '\n' :: longA ++ '\n' :: "Subscribe today".toList

set_option maxRecDepth 20000

/-- Witness for C5: the concrete deliverable `c5text` contains the
300-character CTA-free post `longA`, and repair shortens and suffixes it. -/
theorem validate_repair_c5_witness :
    (reviserStep longA).length ≤ 280 ∧ has_cta (reviserStep longA) = true ∧
    role_reviser (role_critic c5text).posts [] =
      List.intercalate ['\n'] ((role_critic c5text).posts.map reviserStep) :=
  validate_repair_c5_long_line c5text [] longA (by decide) (by decide)
    (by decide) (by decide) (by decide)

lemma enforce_three_length (l : List Str) : (enforce_three l).length = 3 := by
  simp only [enforce_three]
  by_cases h : 3 < (l.filter strTruthy).length
  · rw [if_pos h]
    rw [List.length_append, List.length_replicate, List.length_take]
    omega
  · rw [if_neg h]
    rw [List.length_append, List.length_replicate]
    omega

lemma enforce_three_of_truthy (l : List Str) (h : ∀ p ∈ l, strTruthy p = true) :
    enforce_three l =
      if 3 < l.length then l.take 3
      else l ++ List.replicate (3 - l.length) fallbackPost := by
  simp only [enforce_three]
  rw [List.filter_eq_self.mpr h]
  by_cases h3 : 3 < l.length
  · rw [if_pos h3, if_pos h3]
    have hlen : (l.take 3).length = 3 := by rw [List.length_take]; omega
    rw [hlen]
    simp
  · rw [if_neg h3, if_neg h3]

lemma split_posts_truthy (t : Str) : ∀ p ∈ split_posts t, strTruthy p = true := by
  intro p hp
  simp only [split_posts] at hp
  by_cases h : 3 ≤ (lineCandidates t).length
  · rw [if_pos h] at hp
    exact (List.mem_filter.mp hp).2
  · rw [if_neg h] at hp
    exact (List.mem_filter.mp hp).2

/-- Claim C1: a deliverable whose line-based split yields exactly 3 non-empty
trimmed lines, each at most 280 characters and recognized by `has_cta`, is
accepted by `role_critic` with empty feedback, the verdict posts being those
3 lines. -/
theorem role_critic_c1_accepts_valid (t : Str)
    (h3 : (lineCandidates t).length = 3)
    (hv : ∀ p ∈ lineCandidates t, p.length ≤ 280 ∧ has_cta p = true) :
    role_critic t = ⟨true, [], lineCandidates t⟩ := by
  have hsplit : split_posts t = lineCandidates t := by
    simp only [split_posts]
    rw [if_pos (by omega)]
  have hne : ∀ p ∈ lineCandidates t, strTruthy p = true := by
    intro p hp
    exact (List.mem_filter.mp hp).2
  have henf : enforce_three (split_posts t) = lineCandidates t := by
    rw [hsplit, enforce_three_of_truthy _ hne, if_neg (by omega), h3]
    simp
  have hall_len :
      (lineCandidates t).all (fun p => decide (p.length ≤ 280)) = true :=
    List.all_eq_true.mpr (fun p hp => by simpa using (hv p hp).1)
  have hall_cta : (lineCandidates t).all has_cta = true :=
    List.all_eq_true.mpr (fun p hp => (hv p hp).2)
  simp only [role_critic]
  rw [henf, hall_len, hall_cta, h3]
  simp

/-- A concrete valid deliverable for the C1 witness. -/
def c1text : Str := "Sign up now\nSubscribe today\nJoin our mailing list".toList

/-- Witness for C1: `role_critic` accepts the concrete valid deliverable. -/
theorem role_critic_c1_witness :
    role_critic c1text = ⟨true, [], lineCandidates c1text⟩ :=
  role_critic_c1_accepts_valid c1text (by decide) (by decide)

/-- Claim C4: the validator normalizes the split candidate list to exactly 3
posts before checking — the first 3 are kept if there are more, and the fixed
fallback CTA post is appended until there are 3 if there are fewer — so the
verdict's posts field always has length exactly 3. -/
theorem role_critic_c4_normalizes (t : Str) :
    (role_critic t).posts =
      (if 3 < (split_posts t).length then (split_posts t).take 3
       else split_posts t ++
         List.replicate (3 - (split_posts t).length) fallbackPost) ∧
    (role_critic t).posts.length = 3 := by
  constructor
  · show enforce_three (split_posts t) = _
    exact enforce_three_of_truthy _ (split_posts_truthy t)
  · show (enforce_three (split_posts t)).length = 3
    exact enforce_three_length _

lemma cntMsg_get1 (n : Nat) : (cntMsg n)[1]? = some 'x' := by
  unfold cntMsg
  rw [List.append_assoc,
    List.getElem?_append_left (by decide : 1 < ("Expected 3 posts; got ".toList).length)]
  decide

lemma cntMsg_ne_lenMsg (n : Nat) : cntMsg n ≠ lenMsg := fun h =>
  absurd (h ▸ cntMsg_get1 n) (by decide)

lemma cntMsg_ne_ctaMsg (n : Nat) : cntMsg n ≠ ctaMsg := fun h =>
  absurd (h ▸ cntMsg_get1 n) (by decide)

/-- Claim C10: the validator's count check always passes (the normalized post
list has length exactly 3), the count-violation feedback message is
unreachable, and the verdict's `ok` is determined solely by the per-post
length and CTA checks. -/
theorem role_critic_c10_count_unreachable (t : Str) :
    (role_critic t).posts.length = 3 ∧
    (∀ n, cntMsg n ∉ (role_critic t).feedback) ∧
    (role_critic t).ok =
      ((role_critic t).posts.all (fun p => decide (p.length ≤ 280)) &&
       (role_critic t).posts.all has_cta) := by
  have hlen : (enforce_three (split_posts t)).length = 3 := enforce_three_length _
  refine ⟨hlen, ?_, ?_⟩
  · intro n
    show cntMsg n ∉ (role_critic t).feedback
    simp only [role_critic]
    rw [hlen]
    by_cases hl : (enforce_three (split_posts t)).all
        (fun p => decide (p.length ≤ 280)) = true
    · by_cases hc : (enforce_three (split_posts t)).all has_cta = true
      · simp [hl, hc]
      · rw [Bool.not_eq_true] at hc
        simp [hl, hc, cntMsg_ne_ctaMsg n]
    · rw [Bool.not_eq_true] at hl
      by_cases hc : (enforce_three (split_posts t)).all has_cta = true
      · simp [hl, hc, cntMsg_ne_lenMsg n]
      · rw [Bool.not_eq_true] at hc
        simp [hl, hc, cntMsg_ne_lenMsg n, cntMsg_ne_ctaMsg n]
  · show (role_critic t).ok = _
    simp only [role_critic]
    rw [hlen]
    simp

/-- Claim C7: the splitter is total — it returns the empty sequence on empty
input, and whenever the line-based strategy yields at least 3 candidates it
returns exactly those candidates (the numbered-list fallback is not
applied). -/
theorem split_posts_c7_primary :
    split_posts [] = [] ∧
    ∀ t : Str, 3 ≤ (lineCandidates t).length → split_posts t = lineCandidates t := by
  constructor
  · decide
  · intro t h
    simp only [split_posts]
    rw [if_pos h]

/-- Witness for C7: a 4-line deliverable takes the primary line-based
strategy. -/
theorem split_posts_c7_witness :
    split_posts ("a\nb\nc\nd".toList) = lineCandidates ("a\nb\nc\nd".toList) :=
  split_posts_c7_primary.2 ("a\nb\nc\nd".toList) (by decide)

lemma chatGo_spec {RawT : Type} (req : Nat → Except Str (Str × RawT))
    (backoff : ℚ) (tries : Nat) :
    ∀ fuel attempt, attempt + fuel = tries + 1 → 1 ≤ attempt → attempt ≤ tries →
      1 ≤ (chatGo req backoff tries fuel attempt).2.2 ∧
      attempt + (chatGo req backoff tries fuel attempt).2.2 - 1 ≤ tries ∧
      (chatGo req backoff tries fuel attempt).2.1 =
        (List.range ((chatGo req backoff tries fuel attempt).2.2 - 1)).map
          (fun i => backoff * ((attempt + i : ℕ) : ℚ)) ∧
      (∀ a, attempt ≤ a → a < attempt + (chatGo req backoff tries fuel attempt).2.2 - 1 →
        ∃ e, req a = Except.error e) ∧
      (match req (attempt + (chatGo req backoff tries fuel attempt).2.2 - 1) with
       | Except.ok cr =>
         (chatGo req backoff tries fuel attempt).1 = Except.ok (sanitize cr.1, cr.2)
       | Except.error e =>
         attempt + (chatGo req backoff tries fuel attempt).2.2 - 1 = tries ∧
         (chatGo req backoff tries fuel attempt).1 = Except.error (wrapErr tries e)) := by
  intro fuel
  induction fuel with
  | zero => intro attempt h1 h2 h3; exfalso; omega
  | succ fuel ih =>
    intro attempt h1 h2 h3
    cases hreq : req attempt with
    | ok cr =>
      simp only [chatGo, hreq]
      have hidx : attempt + 1 - 1 = attempt := by omega
      refine ⟨by omega, by omega, by simp, ?_, ?_⟩
      · intro a ha1 ha2; omega
      · rw [hidx, hreq]
    | error e =>
      by_cases hlt : attempt < tries
      · have h1' : (attempt + 1) + fuel = tries + 1 := by omega
        obtain ⟨ih1, ih2, ih3, ih4, ih5⟩ :=
          ih (attempt + 1) h1' (by omega) (by omega)
        simp only [chatGo, hreq, if_pos hlt]
        refine ⟨by omega, by omega, ?_, ?_, ?_⟩
        · rw [ih3]
          obtain ⟨m, hm⟩ :
              ∃ m, (chatGo req backoff tries fuel (attempt + 1)).2.2 = m + 1 :=
            ⟨(chatGo req backoff tries fuel (attempt + 1)).2.2 - 1, by omega⟩
          rw [hm]
          simp only [Nat.add_sub_cancel]
          rw [List.range_succ_eq_map]
          simp only [List.map_cons, List.map_map]
          refine congrArg₂ List.cons (by norm_num) ?_
          refine List.map_congr_left (fun i _ => ?_)
          simp only [Function.comp_apply]
          rw [show attempt + 1 + i = attempt + (i + 1) from by omega]
        · intro a ha1 ha2
          rcases Nat.eq_or_lt_of_le ha1 with heq | hgt
          · exact ⟨e, heq ▸ hreq⟩
          · exact ih4 a (by omega) (by omega)
        · have hidx :
              attempt + ((chatGo req backoff tries fuel (attempt + 1)).2.2 + 1) - 1 =
              (attempt + 1) + (chatGo req backoff tries fuel (attempt + 1)).2.2 - 1 := by
            omega
          rw [hidx]
          exact ih5
      · have heq : attempt = tries := by omega
        simp only [chatGo, hreq, if_neg hlt]
        have hidx : attempt + 1 - 1 = attempt := by omega
        refine ⟨by omega, by omega, by simp, ?_, ?_⟩
        · intro a ha1 ha2; omega
        · rw [hidx, hreq]
          exact ⟨heq, rfl⟩

/-- Claim C9: the completion client makes at least one and at most `tries`
request attempts, sleeping `backoff * attemptNumber` between consecutive
attempts; every attempt before the last one made fails; if the last attempt
made fails then it was attempt `tries` (so every attempt failed) and the
result is a fatal error wrapping the last underlying error; if the last
attempt made succeeds, the result is the sanitized content of that attempt
together with its raw response. -/
theorem chat_c9_retry_contract {RawT : Type} (req : Nat → Except Str (Str × RawT))
    (backoff : ℚ) (tries : Nat) (htries : 1 ≤ tries) :
    1 ≤ (chat req backoff tries).2.2 ∧
    (chat req backoff tries).2.2 ≤ tries ∧
    (chat req backoff tries).2.1 =
      (List.range ((chat req backoff tries).2.2 - 1)).map
        (fun i => backoff * ((1 + i : ℕ) : ℚ)) ∧
    (∀ a, 1 ≤ a → a < (chat req backoff tries).2.2 → ∃ e, req a = Except.error e) ∧
    (match req ((chat req backoff tries).2.2) with
     | Except.ok cr => (chat req backoff tries).1 = Except.ok (sanitize cr.1, cr.2)
     | Except.error e =>
       (chat req backoff tries).2.2 = tries ∧
       (chat req backoff tries).1 = Except.error (wrapErr tries e)) := by
  have h := chatGo_spec req backoff tries tries 1 (by omega) (by omega) htries
  obtain ⟨h1, h2, h3, h4, h5⟩ := h
  have hidx : 1 + (chatGo req backoff tries tries 1).2.2 - 1 =
      (chatGo req backoff tries tries 1).2.2 := by omega
  rw [hidx] at h2 h4 h5
  exact ⟨h1, h2, h3, h4, h5⟩

/-- The attempt oracle for the C9 witness: the first attempt fails, the
second succeeds. -/
def reqW : Nat → Except Str (Str × Nat) := fun a =>
  if a = 1 then Except.error ['x'] else Except.ok ("ok".toList, 7)

/-- Witness for C9: the retry contract at a concrete oracle with 2 tries and
backoff 2. -/
theorem chat_c9_witness :
    1 ≤ (chat reqW 2 2).2.2 ∧
    (chat reqW 2 2).2.2 ≤ 2 ∧
    (chat reqW 2 2).2.1 =
      (List.range ((chat reqW 2 2).2.2 - 1)).map
        (fun i => (2 : ℚ) * ((1 + i : ℕ) : ℚ)) ∧
    (∀ a, 1 ≤ a → a < (chat reqW 2 2).2.2 → ∃ e, reqW a = Except.error e) ∧
    (match reqW ((chat reqW 2 2).2.2) with
     | Except.ok cr => (chat reqW 2 2).1 = Except.ok (sanitize cr.1, cr.2)
     | Except.error e =>
       (chat reqW 2 2).2.2 = 2 ∧
       (chat reqW 2 2).1 = Except.error (wrapErr 2 e)) :=
  chat_c9_retry_contract reqW 2 2 (by decide)

lemma runQueueAux_skip (tidOf : Str → Str) :
    ∀ (lines : List TaskLine) (proc : List Str),
      (∀ id? g, TaskLine.task id? g ∈ lines → (pyStrip g).isEmpty = false →
        effTid tidOf id? (pyStrip g) ∈ proc) →
      runQueueAux tidOf lines proc = (0, 0, 0, proc) := by
  intro lines
  induction lines with
  | nil => intro proc h; rfl
  | cons line rest ih =>
    intro proc h
    cases line with
    | blank =>
      exact ih proc (fun id? g hm he => h id? g (List.mem_cons_of_mem _ hm) he)
    | badJson =>
      exact ih proc (fun id? g hm he => h id? g (List.mem_cons_of_mem _ hm) he)
    | task id? g =>
      simp only [runQueueAux]
      by_cases hg : (pyStrip g).isEmpty = true
      · rw [if_pos hg]
        exact ih proc (fun id2 g2 hm he => h id2 g2 (List.mem_cons_of_mem _ hm) he)
      · rw [if_neg hg]
        have hin : effTid tidOf id? (pyStrip g) ∈ proc :=
          h id? g (List.mem_cons_self _ _) (by rwa [Bool.not_eq_true] at hg)
        rw [if_pos hin]
        exact ih proc (fun id2 g2 hm he => h id2 g2 (List.mem_cons_of_mem _ hm) he)

/-- Claim C8: re-running the queue processor over a task list after a fully
successful prior drain (every task's effective id is already in the loaded
processed set, and the loaded set is as a prior save persisted it: sorted
and duplicate-free) performs zero branch checkouts, zero pipeline runs and
zero commits, and persists a processed set equal to the loaded one. -/
theorem run_queue_c8_rerun_noop (tidOf : Str → Str) (loaded : List Str)
    (lines : List TaskLine)
    (hdone : ∀ id? g, TaskLine.task id? g ∈ lines → (pyStrip g).isEmpty = false →
       effTid tidOf id? (pyStrip g) ∈ loaded)
    (hcanon : pySortedSet loaded = loaded) :
    run_queue tidOf loaded lines = QueueRes.mk 0 0 0 loaded := by
  unfold run_queue
  rw [runQueueAux_skip tidOf lines loaded hdone]
  show QueueRes.mk 0 0 0 (pySortedSet loaded) = QueueRes.mk 0 0 0 loaded
  rw [hcanon]

/-- Witness for C8: a concrete two-line queue whose only task id is already
in the loaded processed set. -/
theorem run_queue_c8_witness :
    run_queue (fun g => g) ["a".toList]
      [TaskLine.blank, TaskLine.task none (" a ".toList)] =
      QueueRes.mk 0 0 0 ["a".toList] :=
  run_queue_c8_rerun_noop (fun g => g) ["a".toList]
    [TaskLine.blank, TaskLine.task none (" a ".toList)]
    (by
      intro id? g hm he
      simp only [List.mem_cons] at hm
      rcases hm with h1 | h1 | h1
      · exact TaskLine.noConfusion h1
      · injection h1 with hid hg
        subst hid
        subst hg
        decide
      · simp at h1)
    (by decide)
